import Mathlib

/-!
Shallow embedding of the Go package `validation` (src/validation.go): a
schema-driven validation engine for dynamically shaped documents.  Decoded
document values are modelled by `DynamicValue`, validator entries by
`Validator`, and the engine entry point `Validate` folds the per-field
processing (`processField`) over an association list of (path, validator)
pairs.  Go panics (out-of-range slicing/indexing, nil dereference,
`log.Panic` on an uncompilable pattern, panics on path accessor errors) are
modelled by `Except.error`.
-/

set_option autoImplicit false

namespace Validation

/-- A decoded dynamic document value (Go `interface\x7b\x7d` holding decoded
JSON/BSON data): nil, bool, `json.Number`, string, `[]interface\x7b\x7d` or
`map[string]interface\x7b\x7d`.  Numbers are modelled by `ℚ` (they retain
enough precision to compare against the float boundaries).  A mapping is an
association list of string keys to values. -/
inductive DynamicValue where
  | null
  | bool (b : Bool)
  | number (q : ℚ)
  | str (s : String)
  | seq (elems : List DynamicValue)
  | mapping (entries : List (String × DynamicValue))
  deriving Repr

/-- Usage modes, Go constants `INIT`, `GET`, `SET`. -/
inductive Usage where
  | INIT
  | GET
  | SET
  deriving DecidableEq, Repr

/-- Go role constant `UNAUTHENTICATED = 0`. -/
def UNAUTHENTICATED : Int := 0

/-- Go role constant `USER = 1`. -/
def USER : Int := 1

/-- Go role constant `OWNER = 2`. -/
def OWNER : Int := 2

/-- Go role constant `ADMIN = 3`. -/
def ADMIN : Int := 3

/-- Go role constant `NONE = 4`. -/
def NONE : Int := 4

/-- Structure `DataError`: a detailed validation error.  The Go `Value interface\x7b\x7d`
member holds either the offending runtime value or a descriptive type-name
string; both are encoded as a `DynamicValue` (type names as `.str`). -/
structure DataError where
  Type' : String
  Reason : String
  Field : String := ""
  Value : Option DynamicValue := none
  deriving Repr

/-- Structure `Boundaries`: min and max for a numeric value.  The Go zero value is
`\x7bMin: 0, Max: 0\x7d`. -/
structure Boundaries where
  Min : ℚ := 0
  Max : ℚ := 0

/-- Modelled from the spec: the Go `regexp` engine is external code.  A
pattern string is either empty (`Regexp == ""`), a compilable pattern with
its match predicate, or an uncompilable pattern (`regexp.Compile` fails). -/
inductive GoPattern where
  | empty
  | valid (test : String → Bool)
  | invalid

/-- Does the pattern model the empty Go string (`validator.Regexp == ""`)? -/
def GoPattern.isEmptyPat : GoPattern → Bool
  | .empty => true
  | _ => false

/-- Structure `Validator`: the per-field rule.  `Type'` models the Go `Type` member
(the string representation of the expected type); `Rights` models the Go
`[3]int` array indexed by the usage enum. -/
structure Validator where
  Type' : String := ""
  Field : String := ""
  Regexp : GoPattern := .empty
  Rights : Usage → Int := fun _ => 0
  Boundaries : Boundaries := {}
  IsRequired : Bool := false
  Default : Option (DynamicValue → DynamicValue) := none
  CustomTest : Option (DynamicValue → Bool × DataError) := none

/-- Structure `Options`: secondary parameters of `Validate`. -/
structure Options where
  Usage : Usage
  UserRights : Int
  Args : DynamicValue := .null

/-- The Go `reflect.TypeOf(v).String()` name of a decoded value;
`none` for a nil interface (where `reflect.TypeOf` returns nil). -/
def goTypeName : DynamicValue → Option String
  | .null => none
  | .bool _ => some "bool"
  | .number _ => some "json.Number"
  | .str _ => some "string"
  | .seq _ => some "[]interface \x7b\x7d"
  | .mapping _ => some "map[string]interface \x7b\x7d"

/-- Is `c` a hexadecimal digit (as accepted by Go `encoding/hex`)? -/
def isHexDigitChar (c : Char) : Bool :=
  c.isDigit || ('a' ≤ c && c ≤ 'f') || ('A' ≤ c && c ≤ 'F')

/-- Modelled from the spec: `bson.IsObjectIdHex` from the external bson
library — the identifier's canonical form is exactly 24 hexadecimal
characters (12 bytes hex-encoded). -/
def isObjectIdHex (s : String) : Bool :=
  s.length == 24 && s.data.all isHexDigitChar

/-- Splits a dot-separated path into its segments (helper). -/
def splitPathAux : List Char → List Char → List String
  | acc, [] => [String.mk acc.reverse]
  | acc, c :: rest =>
    if c = '.' then String.mk acc.reverse :: splitPathAux [] rest
    else splitPathAux (c :: acc) rest

/-- Modelled from the spec: a field path is a sequence of dot-separated
segments addressing nested mappings. -/
def splitPath (s : String) : List String :=
  splitPathAux [] s.data

/-- Sets key `k` to `v` in an association list, replacing the first existing
binding or appending a new one (the update step of the path accessor). -/
def setKey (m : List (String × DynamicValue)) (k : String) (v : DynamicValue) :
    List (String × DynamicValue) :=
  match m with
  | [] => [(k, v)]
  | (k', v') :: rest => if k' = k then (k, v) :: rest else (k', v') :: setKey rest k v

/-- Modelled from the spec: the external path accessor's read, on a segment
list.  An empty segment is a malformed path (an error, which `Validate`
turns into a panic); a missing key or a descent into a non-mapping value is
NotFound, reported as a nil value (`.ok none`). -/
def readSegs : List (String × DynamicValue) → List String → Except String (Option DynamicValue)
  | _, [] => .error "malformed path"
  | m, [s] => if s = "" then .error "malformed path" else .ok (List.lookup s m)
  | m, s :: rest =>
    if s = "" then .error "malformed path"
    else
      match List.lookup s m with
      | some (.mapping m') => readSegs m' rest
      | some _ => .ok none
      | none => .ok none

/-- Modelled from the spec: `tools.ReadDeep` — `read(document, path) →
value | NotFound`, with a malformed path surfacing as an error. -/
def readDeep (m : List (String × DynamicValue)) (path : String) :
    Except String (Option DynamicValue) :=
  readSegs m (splitPath path)

/-- Modelled from the spec: the external path accessor's write, on a segment
list — creating intermediate mappings as needed; an empty segment or an
existing non-mapping intermediate value is a malformed path. -/
def writeSegs : List (String × DynamicValue) → List String → DynamicValue →
    Except String (List (String × DynamicValue))
  | _, [], _ => .error "malformed path"
  | m, [s], v => if s = "" then .error "malformed path" else .ok (setKey m s v)
  | m, s :: s' :: rest, v =>
    if s = "" then .error "malformed path"
    else
      match List.lookup s m with
      | some (.mapping m') =>
        match writeSegs m' (s' :: rest) v with
        | .error e => .error e
        | .ok m'' => .ok (setKey m s (.mapping m''))
      | some _ => .error "malformed path"
      | none =>
        match writeSegs [] (s' :: rest) v with
        | .error e => .error e
        | .ok m'' => .ok (setKey m s (.mapping m''))

/-- Modelled from the spec: `tools.WriteDeep` — `write(document, path,
value) → success | MalformedPath`, a nested write creating intermediate
mappings. -/
def writeDeep (m : List (String × DynamicValue)) (path : String) (v : DynamicValue) :
    Except String (List (String × DynamicValue)) :=
  writeSegs m (splitPath path) v

/-- Method `Validator.ExecRegexp`: compiles the pattern and tests the
string; a failed compile is the Go error return. -/
def Validator.ExecRegexp (v : Validator) (str : String) : Except Unit Bool :=
  match v.Regexp with
  | .empty => .ok true
  | .valid f => .ok (f str)
  | .invalid => .error ()

/-- Method `Validator.CheckBoundaries`: `value >= Min && value <= Max`. -/
def Validator.CheckBoundaries (v : Validator) (value : ℚ) : Bool :=
  decide (v.Boundaries.Min ≤ value) && decide (value ≤ v.Boundaries.Max)

/-- Method `Validator.CheckRights`: `userRights >= usage` (the second
argument is the required-role value passed at the call site). -/
def Validator.CheckRights (_v : Validator) (userRights usage : Int) : Bool :=
  decide (usage ≤ userRights)

/-- Private function `checkRights`: compares the caller's rights with the
rule's required role for the usage; on failure appends an
"Insufficient rights" error naming `validator.Field`. -/
def checkRights (validator : Validator) (usage : Usage) (userRights : Int)
    (errors : List DataError) : Bool × List DataError :=
  if validator.CheckRights userRights (validator.Rights usage) then (true, errors)
  else (false, errors ++
    [{ Type' := "Validation error", Reason := "Insufficient rights", Field := validator.Field }])

/-- The user's custom test step at the end of `checkValue` (Go: runs
`validator.CustomTest` when non-nil and appends its error on failure). -/
def customTestStep (validator : Validator) (valueToTest : DynamicValue)
    (errors : List DataError) : Bool × List DataError :=
  match validator.CustomTest with
  | none => (true, errors)
  | some test =>
    let r := test valueToTest
    if r.1 then (true, errors) else (false, errors ++ [r.2])

/-- Private function `checkValue`: pattern check for strings, boundary
check for numbers, then the custom test.  An uncompilable pattern is
`log.Panic` in Go, modelled as `Except.error`. -/
def checkValue (validator : Validator) (valueToTest : DynamicValue)
    (errors : List DataError) : Except String (Bool × List DataError) :=
  match valueToTest with
  | .str value =>
    if validator.Regexp.isEmptyPat then .ok (customTestStep validator valueToTest errors)
    else
      match validator.ExecRegexp value with
      | .error _ => .error "invalid regexp"
      | .ok ok =>
        if ok then .ok (customTestStep validator valueToTest errors)
        else .ok (false, errors ++
          [{ Type' := "Validation error", Reason := "Regex not match",
             Field := validator.Field, Value := some (.str value) }])
  | .number value =>
    if validator.CheckBoundaries value then .ok (customTestStep validator valueToTest errors)
    else .ok (false, errors ++
      [{ Type' := "Validation error", Reason := "Out of boundaries",
         Field := validator.Field, Value := some (.number value) }])
  | _ => .ok (customTestStep validator valueToTest errors)

/-- Splits a char list after each occurrence of the separator, Go
`strings.SplitAfter` (helper on `List Char`). -/
def splitAfterAux (sep : Char) : List Char → List (List Char)
  | [] => [[]]
  | c :: rest =>
    let r := splitAfterAux sep rest
    if c = sep then [c] :: r
    else
      match r with
      | [] => [[c]]
      | g :: gs => (c :: g) :: gs

/-- Go `strings.SplitAfter(s, "]")`, as used on the validator's type
string in the map branch of `checkType`. -/
def splitAfterRBracket (s : String) : List String :=
  (splitAfterAux ']' s.data).map String.mk

/-- A "Type mismatch" `DataError` with the given field and value string. -/
def typeMismatch (field val : String) : DataError :=
  { Type' := "Validation error", Reason := "Type mismatch", Field := field,
    Value := some (.str val) }

/-- The element loop of the slice branch of `checkType`.  A nil element
makes `reflect.TypeOf(value).String()` panic.  Note the Go code returns
`true` for the whole check as soon as the identifier exception fires on one
element. -/
def checkSeqElems (field elemType : String) (errors : List DataError) :
    List DynamicValue → Except String (Bool × List DataError)
  | [] => .ok (true, errors)
  | value :: rest =>
    match goTypeName value with
    | none => .error "runtime error: invalid memory address or nil pointer dereference"
    | some vtype =>
      if vtype == elemType then checkSeqElems field elemType errors rest
      else
        match value with
        | .str s =>
          if elemType == "bson.ObjectId" && isObjectIdHex s then .ok (true, errors)
          else .ok (false, errors ++ [typeMismatch field ("[] contains " ++ vtype)])
        | _ => .ok (false, errors ++ [typeMismatch field ("[] contains " ++ vtype)])

/-- The entry loop of the map branch of `checkType`: key check against the
`map[bson.ObjectId]` prefix, then the value type against `parts[1]` — an
index that Go evaluates without a length check, so a type string with no
`]` makes a non-empty mapping panic. -/
def checkMapEntries (field : String) (parts : List String) (errors : List DataError) :
    List (String × DynamicValue) → Except String (Bool × List DataError)
  | [] => .ok (true, errors)
  | (key, value) :: rest =>
    if parts.headD "" == "map[bson.ObjectId]" && !isObjectIdHex key then
      .ok (false, errors ++
        [typeMismatch field ("one of the indexes at least is not valid ObjectId: " ++ key)])
    else
      match goTypeName value with
      | none => .error "runtime error: invalid memory address or nil pointer dereference"
      | some vtype =>
        match parts with
        | _ :: p1 :: _ =>
          if vtype == p1 then checkMapEntries field parts errors rest
          else .ok (false, errors ++
            [typeMismatch field ("one of the map values is of type: " ++ vtype)])
        | _ => .error "runtime error: index out of range"

/-- Function `checkType`: dispatches on the runtime kind of the value.  The
slice branch slices `validator.Type[0:2]` (a panic when the type string is
shorter than two bytes); the default branch applies the identifier
exception for strings. -/
def checkType (validator : Validator) (valueToTest : DynamicValue)
    (errors : List DataError) : Except String (Bool × List DataError) :=
  match valueToTest with
  | .seq elems =>
    if validator.Type'.length < 2 then .error "runtime error: slice bounds out of range"
    else
      if validator.Type'.take 2 == "[]" then
        checkSeqElems validator.Field (validator.Type'.drop 2) errors elems
      else .ok (false, errors ++ [typeMismatch validator.Field "[]interface \x7b\x7d"])
  | .mapping entries =>
    checkMapEntries validator.Field (splitAfterRBracket validator.Type') errors entries
  | other =>
    match goTypeName other with
    | none => .ok (true, errors)
    | some tname =>
      if tname == validator.Type' then .ok (true, errors)
      else
        if tname == "string" &&
            (match other with | .str s => isObjectIdHex s | _ => false) then
          .ok (true, errors)
        else .ok (false, errors ++ [typeMismatch validator.Field tname])

/-- Is a value read from the document treated as absent?  Go condition:
`value == nil || (Kind == Slice && len == 0)`; a stored JSON null is a nil
interface as well. -/
def isAbsent : Option DynamicValue → Bool
  | none => true
  | some .null => true
  | some (.seq []) => true
  | some _ => false

/-- The copy of a present value into the destination document: a flat key
equal to the full dot-path for SET (`dest[path] = value`), a nested
`WriteDeep` otherwise. -/
def copyValue (opt : Options) (dest : List (String × DynamicValue)) (path : String)
    (v : DynamicValue) : Except String (List (String × DynamicValue)) :=
  if opt.Usage = Usage.SET then .ok (setKey dest path v) else writeDeep dest path v

/-- The body of the `Validate` loop for one (path, validator) pair:
presence/default policy, the copy of a present value into the destination
document (flat key for SET, nested write otherwise), then the
Type → Value → Rights checks.  Panics are `Except.error`. -/
def processField (opt : Options) (doc : List (String × DynamicValue)) (path : String)
    (validator : Validator) (dest : List (String × DynamicValue))
    (errors : List DataError) :
    Except String (List (String × DynamicValue) × List DataError) :=
  match readDeep doc path with
  | .error e => .error e
  | .ok value =>
    if isAbsent value then
      if opt.Usage = Usage.INIT then
        if validator.IsRequired then
          .ok (dest, errors ++
            [{ Type' := "Validation error", Reason := "Required", Field := path }])
        else
          match validator.Default with
          | some dflt =>
            match writeDeep dest path (dflt opt.Args) with
            | .error e => .error e
            | .ok dest' => .ok (dest', errors)
          | none => .ok (dest, errors)
      else .ok (dest, errors)
    else
      match value with
      | none => .ok (dest, errors)
      | some v =>
        match copyValue opt dest path v with
        | .error e => .error e
        | .ok dest' =>
          match checkType validator v errors with
          | .error e => .error e
          | .ok (tb, errs₁) =>
            if tb then
              match checkValue validator v errs₁ with
              | .error e => .error e
              | .ok (vb, errs₂) =>
                if vb then .ok (dest', (checkRights validator opt.Usage opt.UserRights errs₂).2)
                else .ok (dest', errs₂)
            else .ok (dest', errs₁)

/-- The fold of `processField` over the validator list, threading the
destination document and the error list. -/
def validateLoop (opt : Options) (doc : List (String × DynamicValue)) :
    List (String × Validator) → List (String × DynamicValue) → List DataError →
    Except String (List (String × DynamicValue) × List DataError)
  | [], dest, errors => .ok (dest, errors)
  | (path, validator) :: rest, dest, errors =>
    match processField opt doc path validator dest errors with
    | .error e => .error e
    | .ok (d, es) => validateLoop opt doc rest d es

/-- Public function `Validate`: runs the validators against the document.
The Go validators argument is a map with unspecified iteration order; it is
modelled as an association list, and the claims quantify over arbitrary
orders.  Go panics surface as `Except.error`. -/
def Validate (validators : List (String × Validator))
    (doc : List (String × DynamicValue)) (opt : Options) :
    Except String (List (String × DynamicValue) × List DataError) :=
  validateLoop opt doc validators [] []

/-- A single-segment, non-empty field path (a flat key, no dots). -/
def FlatKey (q : String) : Prop :=
  q ≠ "" ∧ '.' ∉ q.data

/-- Schema well-formedness used by the whole-`Validate` theorems: distinct
field paths, each a flat key, each validator's `Field` naming its own path,
and no user custom tests (whose errors are arbitrary and could alias
another field's name). -/
def WellFormedSchema (validators : List (String × Validator)) : Prop :=
  (validators.map Prod.fst).Nodup ∧
  ∀ pv ∈ validators, FlatKey pv.1 ∧ pv.2.Field = pv.1 ∧ pv.2.CustomTest = none

/-- Scenario B validator: a number with boundaries 0–120. -/
def ageValidator : Validator :=
  { Type' := "json.Number", Field := "age", Boundaries := { Min := 0, Max := 120 } }

/-- Options: usage GET with ADMIN rights. -/
def optGetAdmin : Options := { Usage := Usage.GET, UserRights := ADMIN }

/-- A sequence-of-identifiers validator (`[]bson.ObjectId`). -/
def objectIdSeqValidator : Validator := { Type' := "[]bson.ObjectId", Field := "ids" }

/-- A plain scalar string validator. -/
def stringScalarValidator : Validator := { Type' := "string", Field := "s" }

/-- An identifier-typed validator (`bson.ObjectId`). -/
def objectIdValidator : Validator := { Type' := "bson.ObjectId", Field := "owner" }

/-- A validator requiring role USER for every usage. -/
def userRightsValidator : Validator :=
  { Type' := "string", Field := "secret", Rights := fun _ => USER }

/-- Scenario A validator: a required string. -/
def nameRequiredValidator : Validator :=
  { Type' := "string", Field := "name", IsRequired := true }

/-- Scenario C validator: an optional string sequence, no default. -/
def tagsValidator : Validator := { Type' := "[]string", Field := "tags" }

/-- A validator with the zero-value boundaries (never set). -/
def zeroBoundsValidator : Validator := { Type' := "json.Number", Field := "n" }

/-- A validator whose pattern does not compile. -/
def invalidPatternValidator : Validator :=
  { Type' := "string", Field := "name", Regexp := .invalid }

/-!  Helper lemmas. -/

theorem checkRights_fst (v : Validator) (usage : Usage) (r : Int) (errors : List DataError) :
    (checkRights v usage r errors).1 = v.CheckRights r (v.Rights usage) := by
  unfold checkRights
  split <;> simp_all

theorem splitPathAux_no_dot (cs : List Char) (acc : List Char) (h : '.' ∉ cs) :
    splitPathAux acc cs = [String.mk (acc.reverse ++ cs)] := by
  induction cs generalizing acc with
  | nil => simp [splitPathAux]
  | cons c rest ih =>
    have hc : ¬ c = '.' := by
      intro hcc
      apply h
      rw [hcc]
      exact List.mem_cons_self _ _
    rw [splitPathAux, if_neg hc, ih (c :: acc) (fun hm => h (List.mem_cons_of_mem c hm))]
    simp

theorem splitPath_flat (q : String) (h : '.' ∉ q.data) : splitPath q = [q] := by
  obtain ⟨data⟩ := q
  unfold splitPath
  rw [splitPathAux_no_dot data [] h]
  simp

theorem readDeep_flat (m : List (String × DynamicValue)) (q : String) (hq : FlatKey q) :
    readDeep m q = .ok (List.lookup q m) := by
  unfold readDeep
  rw [splitPath_flat q hq.2]
  simp [readSegs, hq.1]

theorem writeDeep_flat (m : List (String × DynamicValue)) (q : String) (v : DynamicValue)
    (hq : FlatKey q) : writeDeep m q v = .ok (setKey m q v) := by
  unfold writeDeep
  rw [splitPath_flat q hq.2]
  simp [writeSegs, hq.1]

theorem copyValue_flat (opt : Options) (dest : List (String × DynamicValue)) (q : String)
    (v : DynamicValue) (hq : FlatKey q) : copyValue opt dest q v = .ok (setKey dest q v) := by
  unfold copyValue
  split
  · rfl
  · exact writeDeep_flat dest q v hq

theorem setKey_lookup_ne (m : List (String × DynamicValue)) (q k : String) (v : DynamicValue)
    (h : k ≠ q) : List.lookup k (setKey m q v) = List.lookup k m := by
  have hkq : (k == q) = false := beq_eq_false_iff_ne.mpr h
  induction m with
  | nil => simp [setKey, List.lookup, hkq]
  | cons p rest ih =>
    obtain ⟨k', v'⟩ := p
    by_cases hk : k' = q
    · subst hk
      simp [setKey, List.lookup, hkq]
    · simp [setKey, hk, List.lookup, ih]

theorem append_case_nil (errors errs' : List DataError) (field : String) (h : errors = errs') :
    ∃ t, errs' = errors ++ t ∧ ∀ e ∈ t, e.Field = field :=
  ⟨[], by simp [h], by simp⟩

theorem append_case_one (errors errs' : List DataError) (e0 : DataError) (field : String)
    (h : errors ++ [e0] = errs') (hf : e0.Field = field) :
    ∃ t, errs' = errors ++ t ∧ ∀ e ∈ t, e.Field = field := by
  refine ⟨[e0], h.symm, ?_⟩
  intro e he
  simp at he
  subst he
  exact hf

theorem checkSeqElems_append (field elemType : String) (errors : List DataError)
    (elems : List DynamicValue) (b : Bool) (errs' : List DataError)
    (h : checkSeqElems field elemType errors elems = .ok (b, errs')) :
    ∃ t, errs' = errors ++ t ∧ ∀ e ∈ t, e.Field = field := by
  induction elems with
  | nil =>
    simp only [checkSeqElems, Except.ok.injEq, Prod.mk.injEq] at h
    exact append_case_nil _ _ _ h.2
  | cons value rest ih =>
    rw [checkSeqElems] at h
    repeat' split at h
    all_goals
      first
      | exact ih h
      | (simp only [Except.ok.injEq, Prod.mk.injEq] at h
         first
         | exact append_case_nil _ _ _ h.2
         | exact append_case_one _ _ _ _ h.2 rfl)
      | (intro a ha; cases ha)
      | simp at h

theorem checkMapEntries_append (field : String) (parts : List String) (errors : List DataError)
    (entries : List (String × DynamicValue)) (b : Bool) (errs' : List DataError)
    (h : checkMapEntries field parts errors entries = .ok (b, errs')) :
    ∃ t, errs' = errors ++ t ∧ ∀ e ∈ t, e.Field = field := by
  induction entries with
  | nil =>
    simp only [checkMapEntries, Except.ok.injEq, Prod.mk.injEq] at h
    exact append_case_nil _ _ _ h.2
  | cons kv rest ih =>
    obtain ⟨key, value⟩ := kv
    rw [checkMapEntries] at h
    repeat' split at h
    all_goals
      first
      | exact ih h
      | (simp only [Except.ok.injEq, Prod.mk.injEq] at h
         first
         | exact append_case_nil _ _ _ h.2
         | exact append_case_one _ _ _ _ h.2 rfl)
      | (intro a ha; cases ha)
      | simp at h

theorem checkType_append (v : Validator) (x : DynamicValue) (errors : List DataError)
    (b : Bool) (errs' : List DataError) (h : checkType v x errors = .ok (b, errs')) :
    ∃ t, errs' = errors ++ t ∧ ∀ e ∈ t, e.Field = v.Field := by
  cases x with
  | seq elems =>
    rw [checkType] at h
    repeat' split at h
    all_goals
      first
      | exact checkSeqElems_append v.Field _ errors elems b errs' h
      | (simp only [Except.ok.injEq, Prod.mk.injEq] at h
         first
         | exact append_case_nil _ _ _ h.2
         | exact append_case_one _ _ _ _ h.2 rfl)
      | (intro a ha; cases ha)
      | simp at h
  | mapping entries =>
    rw [checkType] at h
    exact checkMapEntries_append v.Field _ errors entries b errs' h
  | null =>
    rw [checkType] at h
    repeat' split at h
    all_goals
      first
      | (simp only [Except.ok.injEq, Prod.mk.injEq] at h
         first
         | exact append_case_nil _ _ _ h.2
         | exact append_case_one _ _ _ _ h.2 rfl)
      | (intro a ha; cases ha)
      | simp at h
  | bool bb =>
    rw [checkType] at h
    repeat' split at h
    all_goals
      first
      | (simp only [Except.ok.injEq, Prod.mk.injEq] at h
         first
         | exact append_case_nil _ _ _ h.2
         | exact append_case_one _ _ _ _ h.2 rfl)
      | (intro a ha; cases ha)
      | simp at h
  | number q =>
    rw [checkType] at h
    repeat' split at h
    all_goals
      first
      | (simp only [Except.ok.injEq, Prod.mk.injEq] at h
         first
         | exact append_case_nil _ _ _ h.2
         | exact append_case_one _ _ _ _ h.2 rfl)
      | (intro a ha; cases ha)
      | simp at h
  | str s =>
    rw [checkType] at h
    repeat' split at h
    all_goals
      first
      | (simp only [Except.ok.injEq, Prod.mk.injEq] at h
         first
         | exact append_case_nil _ _ _ h.2
         | exact append_case_one _ _ _ _ h.2 rfl)
      | (intro a ha; cases ha)
      | simp at h

theorem checkValue_append (v : Validator) (x : DynamicValue) (errors : List DataError)
    (b : Bool) (errs' : List DataError) (hcust : v.CustomTest = none)
    (h : checkValue v x errors = .ok (b, errs')) :
    ∃ t, errs' = errors ++ t ∧ ∀ e ∈ t, e.Field = v.Field := by
  have hstep : customTestStep v x errors = (true, errors) := by
    simp [customTestStep, hcust]
  cases x with
  | str s =>
    rw [checkValue] at h
    repeat' split at h
    all_goals
      first
      | (rw [hstep] at h
         simp only [Except.ok.injEq, Prod.mk.injEq] at h
         exact append_case_nil _ _ _ h.2)
      | (simp only [Except.ok.injEq, Prod.mk.injEq] at h
         first
         | exact append_case_nil _ _ _ h.2
         | exact append_case_one _ _ _ _ h.2 rfl)
      | (intro a ha; cases ha)
      | simp at h
  | number q =>
    rw [checkValue] at h
    repeat' split at h
    all_goals
      first
      | (rw [hstep] at h
         simp only [Except.ok.injEq, Prod.mk.injEq] at h
         exact append_case_nil _ _ _ h.2)
      | (simp only [Except.ok.injEq, Prod.mk.injEq] at h
         first
         | exact append_case_nil _ _ _ h.2
         | exact append_case_one _ _ _ _ h.2 rfl)
      | (intro a ha; cases ha)
      | simp at h
  | null =>
    rw [checkValue] at h
    all_goals
      first
      | (rw [hstep] at h
         simp only [Except.ok.injEq, Prod.mk.injEq] at h
         exact append_case_nil _ _ _ h.2)
      | (intro a ha; cases ha)
  | bool bb =>
    rw [checkValue] at h
    all_goals
      first
      | (rw [hstep] at h
         simp only [Except.ok.injEq, Prod.mk.injEq] at h
         exact append_case_nil _ _ _ h.2)
      | (intro a ha; cases ha)
  | seq elems =>
    rw [checkValue] at h
    all_goals
      first
      | (rw [hstep] at h
         simp only [Except.ok.injEq, Prod.mk.injEq] at h
         exact append_case_nil _ _ _ h.2)
      | (intro a ha; cases ha)
  | mapping entries =>
    rw [checkValue] at h
    all_goals
      first
      | (rw [hstep] at h
         simp only [Except.ok.injEq, Prod.mk.injEq] at h
         exact append_case_nil _ _ _ h.2)
      | (intro a ha; cases ha)

theorem checkRights_snd (v : Validator) (usage : Usage) (r : Int) (errors : List DataError) :
    ∃ t, (checkRights v usage r errors).2 = errors ++ t ∧ ∀ e ∈ t, e.Field = v.Field := by
  unfold checkRights
  split
  · exact ⟨[], by simp, by simp⟩
  · refine ⟨_, rfl, ?_⟩
    intro e he
    simp at he
    subst he
    rfl

/-!  Claim theorems. -/

/-- C6: `CheckRights` returns true iff the caller role is at least the
required role, the role constants are strictly ordered
UNAUTHENTICATED < USER < OWNER < ADMIN < NONE, and the rights check is
monotone in the caller role. -/
theorem C6_checkRights_order_and_monotone :
    (UNAUTHENTICATED < USER ∧ USER < OWNER ∧ OWNER < ADMIN ∧ ADMIN < NONE) ∧
    (∀ (v : Validator) (userRights required : Int),
        v.CheckRights userRights required = true ↔ required ≤ userRights) ∧
    (∀ (v : Validator) (usage : Usage) (r1 r2 : Int) (errors : List DataError),
        r1 ≤ r2 → (checkRights v usage r1 errors).1 = true →
        (checkRights v usage r2 errors).1 = true) := by
  refine ⟨by decide, ?_, ?_⟩
  · intro v u r
    simp [Validator.CheckRights]
  · intro v usage r1 r2 errors h12 h1
    rw [checkRights_fst] at h1 ⊢
    simp only [Validator.CheckRights, decide_eq_true_eq] at h1 ⊢
    exact le_trans h1 h12

/-- C6 witness: USER satisfies a USER-required field, hence so does ADMIN. -/
theorem C6_witness :
    (USER ≤ ADMIN ∧ (checkRights userRightsValidator Usage.SET USER []).1 = true) ∧
    (checkRights userRightsValidator Usage.SET ADMIN []).1 = true :=
  ⟨⟨by decide, by decide⟩,
    C6_checkRights_order_and_monotone.2.2 userRightsValidator Usage.SET USER ADMIN []
      (by decide) (by decide)⟩

/-- C9: the boundary check is inclusive at both ends: `CheckBoundaries`
holds iff `Min ≤ value ≤ Max`, the endpoints themselves pass, and for a
rule without a custom test `checkValue` on a number passes iff the value is
within the boundaries, failing with an "Out of boundaries" error. -/
theorem C9_boundaries_inclusive (v : Validator) (q : ℚ) (errors : List DataError)
    (hcustom : v.CustomTest = none) :
    (v.CheckBoundaries q = true ↔ v.Boundaries.Min ≤ q ∧ q ≤ v.Boundaries.Max) ∧
    (v.Boundaries.Min ≤ v.Boundaries.Max →
        v.CheckBoundaries v.Boundaries.Min = true ∧
        v.CheckBoundaries v.Boundaries.Max = true) ∧
    (v.Boundaries.Min ≤ q → q ≤ v.Boundaries.Max →
        checkValue v (.number q) errors = .ok (true, errors)) ∧
    (¬ (v.Boundaries.Min ≤ q ∧ q ≤ v.Boundaries.Max) →
        checkValue v (.number q) errors = .ok (false, errors ++
          [{ Type' := "Validation error", Reason := "Out of boundaries", Field := v.Field,
             Value := some (.number q) }])) := by
  refine ⟨by simp [Validator.CheckBoundaries], ?_, ?_, ?_⟩
  · intro h
    simp [Validator.CheckBoundaries, h]
  · intro h1 h2
    simp [checkValue, Validator.CheckBoundaries, h1, h2, customTestStep, hcustom]
  · intro h
    simp [checkValue, Validator.CheckBoundaries, customTestStep, hcustom]
    intro hmin
    exact not_le.mp fun hmax => h ⟨hmin, hmax⟩

/-- C9 witness: for boundaries 0–120, the value 120 (the upper endpoint)
passes the value check. -/
theorem C9_witness :
    ageValidator.CustomTest = none ∧ (0 : ℚ) ≤ 120 ∧ (120 : ℚ) ≤ 120 ∧
    checkValue ageValidator (.number 120) [] = .ok (true, []) :=
  ⟨rfl, by decide, by decide,
    (C9_boundaries_inclusive ageValidator 120 [] rfl).2.2.1 (by decide) (by decide)⟩

/-- C10: the boundary check runs unconditionally for every number, so a
rule whose `Boundaries` member was never set keeps the Go zero value
`Min = Max = 0` and rejects every number other than exactly 0 with an
"Out of boundaries" error, while 0 itself passes. -/
theorem C10_zero_value_boundaries (v : Validator) (q : ℚ) (errors : List DataError)
    (hmin : v.Boundaries.Min = 0) (hmax : v.Boundaries.Max = 0)
    (hcustom : v.CustomTest = none) :
    (q ≠ 0 → checkValue v (.number q) errors = .ok (false, errors ++
        [{ Type' := "Validation error", Reason := "Out of boundaries", Field := v.Field,
           Value := some (.number q) }])) ∧
    checkValue v (.number 0) errors = .ok (true, errors) := by
  constructor
  · intro hq
    simp [checkValue, Validator.CheckBoundaries, hmin, hmax, customTestStep, hcustom]
    intro h0
    exact lt_of_le_of_ne h0 (Ne.symm hq)
  · simp [checkValue, Validator.CheckBoundaries, hmin, hmax, customTestStep, hcustom]

/-- C10 witness: a rule with unset boundaries rejects 150 and accepts 0. -/
theorem C10_witness :
    zeroBoundsValidator.Boundaries.Min = 0 ∧ zeroBoundsValidator.Boundaries.Max = 0 ∧
    zeroBoundsValidator.CustomTest = none ∧ (150 : ℚ) ≠ 0 ∧
    checkValue zeroBoundsValidator (.number 150) [] = .ok (false,
      [{ Type' := "Validation error", Reason := "Out of boundaries", Field := "n",
         Value := some (.number 150) }]) :=
  ⟨rfl, rfl, rfl, by decide,
    (C10_zero_value_boundaries zeroBoundsValidator 150 [] rfl rfl rfl).1 (by decide)⟩

/-- C5: with descriptor `bson.ObjectId` a string of exactly 24 lowercase
hexadecimal characters passes the type check even though its runtime kind
is String, while a 23-character string, or a 24-character string containing
a non-hex character, fails with a TypeMismatch. -/
theorem C5_identifier_exception (v : Validator) (s : String) (errors : List DataError)
    (htype : v.Type' = "bson.ObjectId") :
    (s.length = 24 → (∀ c ∈ s.data, c.isDigit = true ∨ ('a' ≤ c ∧ c ≤ 'f')) →
        checkType v (.str s) errors = .ok (true, errors)) ∧
    (s.length = 23 →
        checkType v (.str s) errors = .ok (false, errors ++ [typeMismatch v.Field "string"])) ∧
    (s.length = 24 → (∃ c ∈ s.data, isHexDigitChar c = false) →
        checkType v (.str s) errors = .ok (false, errors ++ [typeMismatch v.Field "string"])) := by
  have hne : ("string" == v.Type') = false := by
    rw [htype]
    rfl
  refine ⟨?_, ?_, ?_⟩
  · intro h24 hall
    have hhex : isObjectIdHex s = true := by
      simp only [isObjectIdHex, h24, List.all_eq_true, Bool.and_eq_true, beq_iff_eq]
      refine ⟨trivial, ?_⟩
      intro c hc
      rcases hall c hc with h | h
      · simp [isHexDigitChar, h]
      · simp [isHexDigitChar, h.1, h.2]
    simp [checkType, goTypeName, hne, hhex]
  · intro h23
    have hhex : isObjectIdHex s = false := by
      simp [isObjectIdHex, h23]
    simp [checkType, goTypeName, hne, hhex]
  · intro h24 hbad
    have hhex : isObjectIdHex s = false := by
      obtain ⟨c, hc, hcbad⟩ := hbad
      have hallf : s.data.all isHexDigitChar = false := by
        rw [List.all_eq_false]
        exact ⟨c, hc, by simp [hcbad]⟩
      simp [isObjectIdHex, hallf]
    simp [checkType, goTypeName, hne, hhex]

/-- C5 witness: `"507f1f77bcf86cd799439011"` (24 lowercase hex characters)
passes the identifier-typed check; its 23-character prefix fails. -/
theorem C5_witness :
    objectIdValidator.Type' = "bson.ObjectId" ∧
    ("507f1f77bcf86cd799439011" : String).length = 24 ∧
    checkType objectIdValidator (.str "507f1f77bcf86cd799439011") [] = .ok (true, []) :=
  ⟨rfl, by decide,
    (C5_identifier_exception objectIdValidator "507f1f77bcf86cd799439011" [] rfl).1
      (by decide) (by decide)⟩

/-- C2: evaluating `checkType` on descriptor `[]bson.ObjectId` — a sequence
whose first element is an identifier string and whose second element is the
boolean `true` is accepted as a whole (the Go loop returns true for the
entire field as soon as the identifier exception fires on one element,
instead of continuing with the remaining elements), although the boolean
element by itself fails with the TypeMismatch the claim describes. -/
theorem C2_sequence_exception_eval :
    checkType objectIdSeqValidator
        (.seq [.str "507f1f77bcf86cd799439011", .bool true]) [] = .ok (true, []) ∧
    checkType objectIdSeqValidator (.seq [.bool true]) [] =
      .ok (false, [typeMismatch "ids" "[] contains bool"]) :=
  ⟨rfl, rfl⟩

/-- C4: evaluating `checkType` on a scalar descriptor (`string`) against a
Mapping value — a non-empty mapping panics (Go indexes `parts[1]` out of
range) instead of returning false with a TypeMismatch, and an empty mapping
passes the check outright. -/
theorem C4_scalar_vs_mapping_eval :
    checkType stringScalarValidator (.mapping [("a", .bool true)]) [] =
      .error "runtime error: index out of range" ∧
    checkType stringScalarValidator (.mapping []) [] = .ok (true, []) :=
  ⟨rfl, rfl⟩

/-- C1 counterexample (Scenario B): schema `age : number` with boundaries
0–120, document `age = 150`, usage GET with ADMIN rights — the output
document still contains `age = 150` alongside the OutOfBoundaries error,
whereas the claim says the out-of-boundaries field is omitted. -/
theorem C1_counterexample :
    Validate [("age", ageValidator)] [("age", .number 150)] optGetAdmin =
      .ok ([("age", .number 150)],
        [{ Type' := "Validation error", Reason := "Out of boundaries", Field := "age",
           Value := some (.number 150) }]) :=
  rfl

/-- C1 amended: a present value is copied into the output document before
the type, value and rights checks run, and no check failure removes it — so
the output contains every present field's value (flat key for SET, nested
write otherwise) regardless of the check outcomes. -/
theorem C1_amended_present_value_always_copied (opt : Options)
    (doc dest : List (String × DynamicValue)) (path : String) (validator : Validator)
    (errors : List DataError) (v : DynamicValue)
    (out : List (String × DynamicValue) × List DataError)
    (hread : readDeep doc path = .ok (some v))
    (hpres : isAbsent (some v) = false)
    (hstep : processField opt doc path validator dest errors = .ok out) :
    copyValue opt dest path v = .ok out.1 ∧
    (opt.Usage = Usage.SET → out.1 = setKey dest path v) ∧
    (opt.Usage ≠ Usage.SET → writeDeep dest path v = .ok out.1) := by
  have hcopy : copyValue opt dest path v = .ok out.1 := by
    simp only [processField, hread, hpres] at hstep
    simp only [Bool.false_eq_true, if_false] at hstep
    cases hc : copyValue opt dest path v with
    | error e =>
      rw [hc] at hstep
      cases hstep
    | ok dest' =>
      rw [hc] at hstep
      cases hct : checkType validator v errors with
      | error e =>
        rw [hct] at hstep
        cases hstep
      | ok tb =>
        obtain ⟨b, errs₁⟩ := tb
        rw [hct] at hstep
        cases b with
        | false =>
          simp only [Bool.false_eq_true, if_false, Except.ok.injEq] at hstep
          rw [← hstep]
        | true =>
          simp only [if_true] at hstep
          cases hcv : checkValue validator v errs₁ with
          | error e =>
            rw [hcv] at hstep
            cases hstep
          | ok vb =>
            obtain ⟨b2, errs₂⟩ := vb
            rw [hcv] at hstep
            cases b2 with
            | false =>
              simp only [Bool.false_eq_true, if_false, Except.ok.injEq] at hstep
              rw [← hstep]
            | true =>
              simp only [if_true, Except.ok.injEq] at hstep
              rw [← hstep]
  refine ⟨hcopy, ?_, ?_⟩
  · intro hset
    simp only [copyValue, hset, if_true, Except.ok.injEq] at hcopy
    exact hcopy.symm
  · intro hset
    simp only [copyValue, hset, if_false] at hcopy
    exact hcopy

/-- C1 amended witness: in Scenario B the out-of-boundaries value 150 is
nonetheless written at `age` in the output document. -/
theorem C1_amended_witness :
    readDeep [("age", .number 150)] "age" = .ok (some (.number 150)) ∧
    isAbsent (some (.number 150)) = false ∧
    processField optGetAdmin [("age", .number 150)] "age" ageValidator [] [] =
      .ok ([("age", .number 150)],
        [{ Type' := "Validation error", Reason := "Out of boundaries", Field := "age",
           Value := some (.number 150) }]) ∧
    copyValue optGetAdmin [] "age" (.number 150) = .ok [("age", DynamicValue.number 150)] :=
  ⟨rfl, rfl, rfl,
    (C1_amended_present_value_always_copied optGetAdmin [("age", .number 150)] [] "age"
      ageValidator [] (.number 150) _ rfl rfl rfl).1⟩

/-- C3 counterexample: a rule whose pattern does not compile makes the
whole `Validate` call abort (Go `log.Panic`) instead of returning a
best-effort result. -/
theorem C3_counterexample :
    Validate [("name", invalidPatternValidator)] [("name", .str "bob")] optGetAdmin =
      .error "invalid regexp" :=
  rfl

/-- C3 amended: per-field *check failures* (a check returning false) never
abort the pass — whenever the read, the copy and the type/value checks
return without a Go panic, `processField` returns normally whatever the
check verdicts are, and the loop continues with the remaining fields; but a
panic (uncompilable pattern, malformed path, or an internal `checkType`
panic) aborts the whole call. -/
theorem C3_amended_check_failures_never_abort (opt : Options)
    (doc dest : List (String × DynamicValue)) (path : String) (validator : Validator)
    (errors : List DataError) (v : DynamicValue)
    (dest' : List (String × DynamicValue)) (tb vb : Bool × List DataError)
    (hread : readDeep doc path = .ok (some v))
    (hpres : isAbsent (some v) = false)
    (hcopy : copyValue opt dest path v = .ok dest')
    (htype : checkType validator v errors = .ok tb)
    (hval : tb.1 = true → checkValue validator v tb.2 = .ok vb) :
    ∃ out, processField opt doc path validator dest errors = .ok out ∧
      ∀ rest, validateLoop opt doc ((path, validator) :: rest) dest errors =
        validateLoop opt doc rest out.1 out.2 := by
  obtain ⟨b, errs₁⟩ := tb
  have hpf : ∃ out, processField opt doc path validator dest errors = .ok out := by
    cases b with
    | false =>
      refine ⟨(dest', errs₁), ?_⟩
      simp [processField, hread, hpres, hcopy, htype]
    | true =>
      have hcv := hval rfl
      obtain ⟨b2, errs₂⟩ := vb
      cases b2 with
      | false =>
        refine ⟨(dest', errs₂), ?_⟩
        simp [processField, hread, hpres, hcopy, htype, hcv]
      | true =>
        refine ⟨(dest', (checkRights validator opt.Usage opt.UserRights errs₂).2), ?_⟩
        simp [processField, hread, hpres, hcopy, htype, hcv]
  obtain ⟨out, hout⟩ := hpf
  exact ⟨out, hout, fun rest => by simp [validateLoop, hout]⟩

/-- C3 amended witness: the field `age = 150` fails its value check, yet
its `processField` returns normally and the loop proceeds. -/
theorem C3_amended_witness :
    readDeep [("age", .number 150)] "age" = .ok (some (.number 150)) ∧
    checkType ageValidator (.number 150) [] = .ok (true, []) ∧
    ∃ out, processField optGetAdmin [("age", .number 150)] "age" ageValidator [] [] =
        .ok out ∧
      ∀ rest, validateLoop optGetAdmin [("age", .number 150)]
          (("age", ageValidator) :: rest) [] [] =
        validateLoop optGetAdmin [("age", .number 150)] rest out.1 out.2 :=
  ⟨rfl, rfl,
    C3_amended_check_failures_never_abort optGetAdmin [("age", .number 150)] [] "age"
      ageValidator [] (.number 150) [("age", .number 150)] (true, [])
      (false, [{ Type' := "Validation error", Reason := "Out of boundaries", Field := "age",
                 Value := some (.number 150) }])
      rfl rfl rfl rfl (fun _ => rfl)⟩

/-!  Per-field and loop lemmas for the whole-`Validate` theorems. -/

theorem processField_required (opt : Options) (doc : List (String × DynamicValue))
    (q : String) (w : Validator) (dest : List (String × DynamicValue))
    (errors : List DataError) (hq : FlatKey q) (husage : opt.Usage = Usage.INIT)
    (hreq : w.IsRequired = true) (habs : isAbsent (List.lookup q doc) = true) :
    processField opt doc q w dest errors =
      .ok (dest, errors ++
        [{ Type' := "Validation error", Reason := "Required", Field := q }]) := by
  simp only [processField, readDeep_flat doc q hq]
  rw [if_pos habs, if_pos husage, if_pos hreq]

theorem processField_skip (opt : Options) (doc : List (String × DynamicValue))
    (q : String) (w : Validator) (dest : List (String × DynamicValue))
    (errors : List DataError) (hq : FlatKey q)
    (habs : isAbsent (List.lookup q doc) = true)
    (hcond : opt.Usage = Usage.GET ∨ opt.Usage = Usage.SET ∨
      (opt.Usage = Usage.INIT ∧ w.IsRequired = false ∧ w.Default = none)) :
    processField opt doc q w dest errors = .ok (dest, errors) := by
  simp only [processField, readDeep_flat doc q hq]
  rw [if_pos habs]
  rcases hcond with hg | hs | ⟨hi, hr, hd⟩
  · rw [if_neg (by rw [hg]; exact fun hx => Usage.noConfusion hx)]
  · rw [if_neg (by rw [hs]; exact fun hx => Usage.noConfusion hx)]
  · rw [if_pos hi, if_neg (by rw [hr]; exact Bool.false_ne_true), hd]

theorem processField_step (opt : Options) (doc : List (String × DynamicValue))
    (q : String) (w : Validator) (dest : List (String × DynamicValue))
    (errors : List DataError) (dest₂ : List (String × DynamicValue)) (errs₂ : List DataError)
    (hq : FlatKey q) (hcust : w.CustomTest = none)
    (h : processField opt doc q w dest errors = .ok (dest₂, errs₂)) :
    (∀ k, k ≠ q → List.lookup k dest₂ = List.lookup k dest) ∧
    (∃ t, errs₂ = errors ++ t ∧ ∀ e ∈ t, e.Field = q ∨ e.Field = w.Field) := by
  simp only [processField, readDeep_flat doc q hq] at h
  cases hab : isAbsent (List.lookup q doc) with
  | true =>
    rw [if_pos hab] at h
    by_cases hu : opt.Usage = Usage.INIT
    · rw [if_pos hu] at h
      by_cases hr : w.IsRequired = true
      · rw [if_pos hr] at h
        simp only [Except.ok.injEq, Prod.mk.injEq] at h
        obtain ⟨hd, he⟩ := h
        subst hd
        subst he
        refine ⟨fun k _ => rfl, [_], rfl, ?_⟩
        intro e he'
        simp at he'
        subst he'
        left
        rfl
      · rw [if_neg hr] at h
        cases hdft : w.Default with
        | none =>
          simp only [hdft, Except.ok.injEq, Prod.mk.injEq] at h
          obtain ⟨hd, he⟩ := h
          subst hd
          subst he
          exact ⟨fun k _ => rfl, [], by simp, by simp⟩
        | some dflt =>
          simp only [hdft, writeDeep_flat dest q (dflt opt.Args) hq, Except.ok.injEq,
            Prod.mk.injEq] at h
          obtain ⟨hd, he⟩ := h
          subst hd
          subst he
          exact ⟨fun k hk => setKey_lookup_ne dest q k _ hk, [], by simp, by simp⟩
    · rw [if_neg hu] at h
      simp only [Except.ok.injEq, Prod.mk.injEq] at h
      obtain ⟨hd, he⟩ := h
      subst hd
      subst he
      exact ⟨fun k _ => rfl, [], by simp, by simp⟩
  | false =>
    rw [if_neg (by rw [hab]; exact Bool.false_ne_true)] at h
    cases hv : List.lookup q doc with
    | none => simp [hv, isAbsent] at hab
    | some v =>
      simp only [hv, copyValue_flat opt dest q v hq] at h
      cases hct : checkType w v errors with
      | error e =>
        rw [hct] at h
        simp at h
      | ok tb =>
        obtain ⟨tbb, errs₁⟩ := tb
        obtain ⟨t₁, ht₁, hf₁⟩ := checkType_append w v errors tbb errs₁ hct
        simp only [hct] at h
        cases tbb with
        | false =>
          rw [if_neg Bool.false_ne_true] at h
          simp only [Except.ok.injEq, Prod.mk.injEq] at h
          obtain ⟨hd, he⟩ := h
          subst hd
          subst he
          refine ⟨fun k hk => setKey_lookup_ne dest q k v hk, t₁, ht₁, ?_⟩
          intro e he'
          right
          exact hf₁ e he'
        | true =>
          rw [if_pos rfl] at h
          cases hcv : checkValue w v errs₁ with
          | error e =>
            rw [hcv] at h
            simp at h
          | ok vb =>
            obtain ⟨vbb, errs₂'⟩ := vb
            obtain ⟨t₂, ht₂, hf₂⟩ := checkValue_append w v errs₁ vbb errs₂' hcust hcv
            simp only [hcv] at h
            cases vbb with
            | false =>
              rw [if_neg Bool.false_ne_true] at h
              simp only [Except.ok.injEq, Prod.mk.injEq] at h
              obtain ⟨hd, he⟩ := h
              subst hd
              subst he
              refine ⟨fun k hk => setKey_lookup_ne dest q k v hk, t₁ ++ t₂, ?_, ?_⟩
              · rw [ht₂, ht₁, List.append_assoc]
              · intro e he'
                right
                rcases List.mem_append.mp he' with hm | hm
                · exact hf₁ e hm
                · exact hf₂ e hm
            | true =>
              rw [if_pos rfl] at h
              obtain ⟨t₃, ht₃, hf₃⟩ := checkRights_snd w opt.Usage opt.UserRights errs₂'
              simp only [Except.ok.injEq, Prod.mk.injEq] at h
              obtain ⟨hd, he⟩ := h
              subst hd
              subst he
              refine ⟨fun k hk => setKey_lookup_ne dest q k v hk, t₁ ++ (t₂ ++ t₃), ?_, ?_⟩
              · rw [ht₃, ht₂, ht₁, List.append_assoc, List.append_assoc]
              · intro e he'
                right
                rcases List.mem_append.mp he' with hm | hm
                · exact hf₁ e hm
                · rcases List.mem_append.mp hm with hm' | hm'
                  · exact hf₂ e hm'
                  · exact hf₃ e hm'

theorem validateLoop_avoid (opt : Options) (doc : List (String × DynamicValue)) (path : String) :
    ∀ (vs : List (String × Validator)) (dest : List (String × DynamicValue))
      (errors : List DataError) (dest' : List (String × DynamicValue))
      (errors' : List DataError),
    (∀ pv ∈ vs, FlatKey pv.1 ∧ pv.2.Field = pv.1 ∧ pv.2.CustomTest = none) →
    (∀ pv ∈ vs, pv.1 ≠ path) →
    validateLoop opt doc vs dest errors = .ok (dest', errors') →
    List.lookup path dest' = List.lookup path dest ∧
    ∃ t, errors' = errors ++ t ∧ ∀ e ∈ t, e.Field ≠ path := by
  intro vs
  induction vs with
  | nil =>
    intro dest errors dest' errors' _ _ hrun
    simp only [validateLoop, Except.ok.injEq, Prod.mk.injEq] at hrun
    obtain ⟨hd, he⟩ := hrun
    subst hd
    subst he
    exact ⟨rfl, [], by simp, by simp⟩
  | cons pv rest ih =>
    obtain ⟨q, w⟩ := pv
    intro dest errors dest' errors' hwf havoid hrun
    simp only [validateLoop] at hrun
    cases hpf : processField opt doc q w dest errors with
    | error e =>
      rw [hpf] at hrun
      simp at hrun
    | ok de =>
      obtain ⟨d1, e1⟩ := de
      rw [hpf] at hrun
      have hhead := hwf (q, w) (List.mem_cons_self _ _)
      have hstep := processField_step opt doc q w dest errors d1 e1 hhead.1 hhead.2.2 hpf
      have hrest := ih d1 e1 dest' errors'
        (fun pv hpv => hwf pv (List.mem_cons_of_mem _ hpv))
        (fun pv hpv => havoid pv (List.mem_cons_of_mem _ hpv)) hrun
      have hqp : q ≠ path := havoid (q, w) (List.mem_cons_self _ _)
      refine ⟨by rw [hrest.1, hstep.1 path (Ne.symm hqp)], ?_⟩
      obtain ⟨t0, ht0, hf0⟩ := hstep.2
      obtain ⟨t1, ht1, hf1⟩ := hrest.2
      refine ⟨t0 ++ t1, by rw [ht1, ht0, List.append_assoc], ?_⟩
      intro e he
      rcases List.mem_append.mp he with hm | hm
      · rcases hf0 e hm with hfe | hfe
        · rw [hfe]
          exact hqp
        · rw [hfe, hhead.2.1]
          exact hqp
      · exact hf1 e hm

theorem validateLoop_required (opt : Options) (doc : List (String × DynamicValue))
    (path : String) (validator : Validator) (husage : opt.Usage = Usage.INIT)
    (hreq : validator.IsRequired = true)
    (habs : isAbsent (List.lookup path doc) = true) :
    ∀ (vs : List (String × Validator)) (dest : List (String × DynamicValue))
      (errors : List DataError) (dest' : List (String × DynamicValue))
      (errors' : List DataError),
    (vs.map Prod.fst).Nodup →
    (∀ pv ∈ vs, FlatKey pv.1 ∧ pv.2.Field = pv.1 ∧ pv.2.CustomTest = none) →
    (path, validator) ∈ vs →
    validateLoop opt doc vs dest errors = .ok (dest', errors') →
    List.lookup path dest' = List.lookup path dest ∧
    ∃ t, errors' = errors ++ t ∧
      t.countP (fun e => e.Reason == "Required" && e.Field == path) = 1 := by
  intro vs
  induction vs with
  | nil =>
    intro dest errors dest' errors' _ _ hmem _
    simp at hmem
  | cons pv rest ih =>
    obtain ⟨q, w⟩ := pv
    intro dest errors dest' errors' hnodup hwf hmem hrun
    simp only [validateLoop] at hrun
    have hnodup' : q ∉ rest.map Prod.fst ∧ (rest.map Prod.fst).Nodup := by
      simpa [List.nodup_cons] using hnodup
    rcases List.mem_cons.mp hmem with hhd | htl
    · obtain ⟨hq1, hq2⟩ := Prod.mk.injEq .. ▸ hhd
      subst hq1
      subst hq2
      have hhead := hwf (path, validator) (List.mem_cons_self _ _)
      rw [processField_required opt doc path validator dest errors hhead.1 husage hreq
        habs] at hrun
      have havoid : ∀ pv ∈ rest, pv.1 ≠ path := by
        intro pv hpv hp
        exact hnodup'.1 (hp ▸ List.mem_map_of_mem Prod.fst hpv)
      have hrest := validateLoop_avoid opt doc path rest dest
        (errors ++ [{ Type' := "Validation error", Reason := "Required", Field := path }])
        dest' errors' (fun pv hpv => hwf pv (List.mem_cons_of_mem _ hpv)) havoid hrun
      refine ⟨hrest.1, ?_⟩
      obtain ⟨t1, ht1, hf1⟩ := hrest.2
      refine ⟨{ Type' := "Validation error", Reason := "Required", Field := path } :: t1,
        by rw [ht1]; simp, ?_⟩
      rw [List.countP_cons]
      have hc1 : (fun e => e.Reason == "Required" && e.Field == path)
          ({ Type' := "Validation error", Reason := "Required", Field := path } :
            DataError) = true := by simp
      rw [List.countP_eq_zero.mpr ?_]
      · simp [hc1]
      · intro e he
        have := hf1 e he
        simp [this]
    · have hqp : q ≠ path := by
        intro hq_eq
        exact hnodup'.1 (hq_eq ▸ List.mem_map_of_mem Prod.fst htl)
      cases hpf : processField opt doc q w dest errors with
      | error e =>
        rw [hpf] at hrun
        simp at hrun
      | ok de =>
        obtain ⟨d1, e1⟩ := de
        rw [hpf] at hrun
        have hhead := hwf (q, w) (List.mem_cons_self _ _)
        have hstep := processField_step opt doc q w dest errors d1 e1 hhead.1 hhead.2.2 hpf
        have hrest := ih d1 e1 dest' errors' hnodup'.2
          (fun pv hpv => hwf pv (List.mem_cons_of_mem _ hpv)) htl hrun
        refine ⟨by rw [hrest.1, hstep.1 path (Ne.symm hqp)], ?_⟩
        obtain ⟨t0, ht0, hf0⟩ := hstep.2
        obtain ⟨t1, ht1, hf1⟩ := hrest.2
        refine ⟨t0 ++ t1, by rw [ht1, ht0, List.append_assoc], ?_⟩
        rw [List.countP_append]
        rw [List.countP_eq_zero.mpr ?_]
        · simpa using hf1
        · intro e he
          have hne : e.Field ≠ path := by
            rcases hf0 e he with hfe | hfe
            · rw [hfe]
              exact hqp
            · rw [hfe, hhead.2.1]
              exact hqp
          simp [hne]

theorem validateLoop_skip_mem (opt : Options) (doc : List (String × DynamicValue))
    (path : String) (validator : Validator)
    (habs : isAbsent (List.lookup path doc) = true)
    (hcond : opt.Usage = Usage.GET ∨ opt.Usage = Usage.SET ∨
      (opt.Usage = Usage.INIT ∧ validator.IsRequired = false ∧ validator.Default = none)) :
    ∀ (vs : List (String × Validator)) (dest : List (String × DynamicValue))
      (errors : List DataError) (dest' : List (String × DynamicValue))
      (errors' : List DataError),
    (vs.map Prod.fst).Nodup →
    (∀ pv ∈ vs, FlatKey pv.1 ∧ pv.2.Field = pv.1 ∧ pv.2.CustomTest = none) →
    (path, validator) ∈ vs →
    validateLoop opt doc vs dest errors = .ok (dest', errors') →
    List.lookup path dest' = List.lookup path dest ∧
    ∃ t, errors' = errors ++ t ∧ ∀ e ∈ t, e.Field ≠ path := by
  intro vs
  induction vs with
  | nil =>
    intro dest errors dest' errors' _ _ hmem _
    simp at hmem
  | cons pv rest ih =>
    obtain ⟨q, w⟩ := pv
    intro dest errors dest' errors' hnodup hwf hmem hrun
    simp only [validateLoop] at hrun
    have hnodup' : q ∉ rest.map Prod.fst ∧ (rest.map Prod.fst).Nodup := by
      simpa [List.nodup_cons] using hnodup
    rcases List.mem_cons.mp hmem with hhd | htl
    · obtain ⟨hq1, hq2⟩ := Prod.mk.injEq .. ▸ hhd
      subst hq1
      subst hq2
      have hhead := hwf (path, validator) (List.mem_cons_self _ _)
      rw [processField_skip opt doc path validator dest errors hhead.1 habs hcond] at hrun
      have havoid : ∀ pv ∈ rest, pv.1 ≠ path := by
        intro pv hpv hp
        exact hnodup'.1 (hp ▸ List.mem_map_of_mem Prod.fst hpv)
      exact validateLoop_avoid opt doc path rest dest errors dest' errors'
        (fun pv hpv => hwf pv (List.mem_cons_of_mem _ hpv)) havoid hrun
    · have hqp : q ≠ path := by
        intro hq_eq
        exact hnodup'.1 (hq_eq ▸ List.mem_map_of_mem Prod.fst htl)
      cases hpf : processField opt doc q w dest errors with
      | error e =>
        rw [hpf] at hrun
        simp at hrun
      | ok de =>
        obtain ⟨d1, e1⟩ := de
        rw [hpf] at hrun
        have hhead := hwf (q, w) (List.mem_cons_self _ _)
        have hstep := processField_step opt doc q w dest errors d1 e1 hhead.1 hhead.2.2 hpf
        have hrest := ih d1 e1 dest' errors' hnodup'.2
          (fun pv hpv => hwf pv (List.mem_cons_of_mem _ hpv)) htl hrun
        refine ⟨by rw [hrest.1, hstep.1 path (Ne.symm hqp)], ?_⟩
        obtain ⟨t0, ht0, hf0⟩ := hstep.2
        obtain ⟨t1, ht1, hf1⟩ := hrest.2
        refine ⟨t0 ++ t1, by rw [ht1, ht0, List.append_assoc], ?_⟩
        intro e he
        rcases List.mem_append.mp he with hm | hm
        · rcases hf0 e hm with hfe | hfe
          · rw [hfe]
            exact hqp
          · rw [hfe, hhead.2.1]
            exact hqp
        · exact hf1 e hm

/-- C7: under usage Init, a required field whose value is absent yields
exactly one "Required" error naming that field, and the field is absent
from the output document (stated for well-formed schemas: distinct flat
field paths, `Field` matching the path, no custom tests). -/
theorem C7_required_missing_init (validators : List (String × Validator))
    (doc : List (String × DynamicValue)) (opt : Options) (path : String)
    (validator : Validator) (dest : List (String × DynamicValue)) (errors : List DataError)
    (husage : opt.Usage = Usage.INIT)
    (hwf : WellFormedSchema validators)
    (hmem : (path, validator) ∈ validators)
    (hreq : validator.IsRequired = true)
    (habs : isAbsent (List.lookup path doc) = true)
    (hrun : Validate validators doc opt = .ok (dest, errors)) :
    errors.countP (fun e => e.Reason == "Required" && e.Field == path) = 1 ∧
    List.lookup path dest = none := by
  have hres := validateLoop_required opt doc path validator husage hreq habs validators
    [] [] dest errors hwf.1 hwf.2 hmem hrun
  obtain ⟨t, ht, hcount⟩ := hres.2
  constructor
  · rw [ht]
    simpa using hcount
  · rw [hres.1]
    rfl

/-- C7 witness (Scenario A): schema `name : string, required`, empty
document, usage Init — exactly one Required error for `name`, `name`
absent from the output. -/
theorem C7_witness :
    nameRequiredValidator.IsRequired = true ∧
    (List.countP (fun (e : DataError) => e.Reason == "Required" && e.Field == "name")
        ([{ Type' := "Validation error", Reason := "Required", Field := "name" }] :
          List DataError) = 1 ∧
      List.lookup "name" ([] : List (String × DynamicValue)) = none) :=
  ⟨rfl,
    C7_required_missing_init [("name", nameRequiredValidator)] []
      { Usage := Usage.INIT, UserRights := ADMIN } "name" nameRequiredValidator []
      [{ Type' := "Validation error", Reason := "Required", Field := "name" }]
      rfl
      (by
        constructor
        · simp
        · intro pv hpv
          simp only [List.mem_singleton] at hpv
          subst hpv
          exact ⟨⟨by simp, by simp [nameRequiredValidator]⟩, rfl, rfl⟩)
      (by simp) rfl rfl rfl⟩

/-- C8: a Null or empty-Sequence value is treated as absent, and an absent
field under usage Get or Set — or under Init when the rule is not required
and has no default — is skipped entirely: it does not appear in the output
document and no error names it (stated for well-formed schemas: distinct
flat field paths, `Field` matching the path, no custom tests). -/
theorem C8_absent_field_skipped (validators : List (String × Validator))
    (doc : List (String × DynamicValue)) (opt : Options) (path : String)
    (validator : Validator) (dest : List (String × DynamicValue)) (errors : List DataError)
    (hwf : WellFormedSchema validators)
    (hmem : (path, validator) ∈ validators)
    (habs : isAbsent (List.lookup path doc) = true)
    (hcond : opt.Usage = Usage.GET ∨ opt.Usage = Usage.SET ∨
      (opt.Usage = Usage.INIT ∧ validator.IsRequired = false ∧ validator.Default = none))
    (hrun : Validate validators doc opt = .ok (dest, errors)) :
    (isAbsent (some .null) = true ∧ isAbsent (some (.seq [])) = true) ∧
    List.lookup path dest = none ∧
    errors.countP (fun e => e.Field == path) = 0 := by
  have hres := validateLoop_skip_mem opt doc path validator habs hcond validators
    [] [] dest errors hwf.1 hwf.2 hmem hrun
  obtain ⟨t, ht, hf⟩ := hres.2
  refine ⟨⟨rfl, rfl⟩, by rw [hres.1]; rfl, ?_⟩
  rw [ht]
  simp only [List.nil_append]
  rw [List.countP_eq_zero]
  intro e he
  simp [hf e he]

/-- C8 witness (Scenario C): schema `tags : []string` (optional, no
default), document `tags = []`, usage Init — the empty sequence counts as
absent, the output omits `tags` and no error is emitted. -/
theorem C8_witness :
    isAbsent (List.lookup "tags" [("tags", DynamicValue.seq [])]) = true ∧
    (isAbsent (some .null) = true ∧ isAbsent (some (.seq [])) = true) ∧
    List.lookup "tags" ([] : List (String × DynamicValue)) = none ∧
    List.countP (fun e => e.Field == "tags") ([] : List DataError) = 0 :=
  ⟨rfl,
    C8_absent_field_skipped [("tags", tagsValidator)] [("tags", DynamicValue.seq [])]
      { Usage := Usage.INIT, UserRights := ADMIN } "tags" tagsValidator [] []
      (by
        constructor
        · simp
        · intro pv hpv
          simp only [List.mem_singleton] at hpv
          subst hpv
          exact ⟨⟨by simp, by simp [tagsValidator]⟩, rfl, rfl⟩)
      (by simp) rfl (Or.inr (Or.inr ⟨rfl, rfl, rfl⟩)) rfl⟩

end Validation
